import Mathlib

set_option maxHeartbeats 1000000

/-!
Verification of the reactive style-rule registry (crates/zoon/src/style.rs).

The development shallowly embeds the styling subsystem:

* a CSS declaration block (`Decl`) as a finite map from property names to
  an optional `(value, important)` pair, together with an abstract browser
  engine model (`Engine`) saying which `setProperty` calls throw (`ok`)
  and which ones actually store a readable value (`takes`);
* the property-application routine `set_css_property` with its
  vendor-prefix fallback loop, translated branch by branch from the source;
* the id/index registry (`MonotonicIds`) — its implementation file is not
  part of the provided sources, so it is modelled from the spec;
* the stylesheet owner (`GlobalStyles`) with `style_group`,
  `style_group_droppable`, `style_group_inner` and `remove_rule`,
  instrumented with an effect trace recording the external calls performed;
* the per-value behaviour of a dynamic property binding (`bindingStep`);
* a small cooperative-scheduling trace model for handle release.
-/

/-! ## Declaration blocks and the engine model -/

/-- A CSS declaration block (`CssStyleDeclaration`): each property name maps
to an optional `(value, important)` pair.  An absent slot reads back as the
empty string. -/
def Decl : Type := String → Option (String × Bool)

def emptyDecl : Decl := fun _ => none

/-- Readback of `CssStyleDeclaration::get_property_value`: the stored value,
or `""` when the slot is empty. -/
def getProp (d : Decl) (n : String) : String :=
  match d n with
  | some p => p.1
  | none => ""

/-- Store a `(value, important)` pair in one slot. -/
def insertSlot (d : Decl) (n v : String) (imp : Bool) : Decl :=
  fun q => if q = n then some (v, imp) else d q

/-- Clear one slot (`CssStyleDeclaration::remove_property`). -/
def eraseSlot (d : Decl) (n : String) : Decl :=
  fun q => if q = n then none else d q

/-- Clear every slot named in `qs` (proof device). -/
def eraseAll (d : Decl) (qs : List String) : Decl :=
  fun q => if q ∈ qs then none else d q

/-- Abstract browser engine: `ok n v` tells whether
`set_property_with_priority(n, v, _)` returns `Ok` (rather than throwing),
and `takes n v` tells whether an accepted write actually stores a readable
value.  Engine support is a static property of the backend, so both are
functions of the name/value pair only. -/
structure Engine where
  ok : String → String → Bool
  takes : String → String → Bool

/-- Effect on the declaration block of one *accepted* (non-throwing)
`set_property_with_priority(n, v, priority)` call: per CSSOM, an empty
value removes the declaration, an unsupported pair leaves the block
unchanged, and a supported pair stores the value with the given priority. -/
def applyWrite (e : Engine) (d : Decl) (n v : String) (imp : Bool) : Decl :=
  if v = "" then eraseSlot d n
  else if e.takes n v then insertSlot d n v imp
  else d

/-! ## `set_css_property` (style.rs:457-496) -/

/-- Diagnostic of the final `panic!` in `set_css_property`; it names the
failing property/value pair. -/
def panicMsg (n v : String) : String :=
  "invalid CSS property: `" ++ n ++ ": " ++ v ++ ";`"

/-- Diagnostic of the `expect_throw` on a rejected write inside the
fallback loop. -/
def rejectMsg : String := "style: set_property_with_priority failed"

/-- The nested vendor-prefix fallback loops of `set_css_property`,
flattened over the explicit list of (name-prefix, value-prefix)
combinations.  Each iteration writes `prefixed-name: prefixed-value`
(throwing rejections abort via `expect_throw`, modelled as `.error`),
re-checks the slot, and returns at the first non-empty readback.
Exhaustion reaches the final `panic!`. -/
def setLoop (e : Engine) (n v : String) (imp : Bool) :
    List (String × String) → Decl → Except String Decl
  | [], _ => Except.error (panicMsg n v)
  | c :: rest, d =>
    let pn := c.1 ++ n
    let pv := c.2 ++ v
    if e.ok pn pv = false then Except.error (rejectMsg)
    else
      let d2 := applyWrite e d pn pv imp
      if getProp d2 pn = "" then setLoop e n v imp rest d2
      else Except.ok d2

/-- The combination list iterated by the two nested loops: the empty
prefix first in both positions, name-prefix as the outer iteration,
value-prefix as the inner one. -/
def allCombos (ps : List String) : List (String × String) :=
  ("" :: ps).flatMap (fun np => ("" :: ps).map (fun vp => (np, vp)))

/-- Embedding of `set_css_property` (style.rs:457-496), parametric in the engine model
and in the vendor-prefix list (the list constant itself is defined outside
the provided sources).  A rejected verbatim write is logged and absorbed
(`return`, leaving the block unchanged); an accepted verbatim write with a
non-empty readback succeeds immediately; otherwise the fallback loop runs. -/
def set_css_property (e : Engine) (ps : List String) (d : Decl)
    (n v : String) (imp : Bool) : Except String Decl :=
  if e.ok n v = false then Except.ok d
  else
    let d2 := applyWrite e d n v imp
    if getProp d2 n = "" then setLoop e n v imp (allCombos ps) d2
    else Except.ok d2

/-- Concrete stand-in for the repository's fixed ordered vendor-prefix
list (its defining file is not among the provided sources; all general
theorems are parametric in the list and use this only as sample data). -/
def VENDOR_PREFIXES : List String := ["-webkit-", "-moz-", "-ms-", "-o-"]

/-- State of the declaration block after performing the writes of a list
of prefix combinations in order (proof device for stating where the
fallback search stops). -/
def applySeq (e : Engine) (n v : String) (imp : Bool)
    (cs : List (String × String)) (s : Decl) : Decl :=
  cs.foldl (fun d c => applyWrite e d (c.1 ++ n) (c.2 ++ v) imp) s

/-! ## The id/index registry (`MonotonicIds`)

`GlobalStyles` stores a `MonotonicIds` registry (style.rs:355) and calls
`add_new_id` / `remove_id` on it, but the registry's own implementation
file is not among the provided sources; it is therefore modelled from the
spec below. -/

/-- Modelled from the spec: the id/index registry state (`MonotonicIds`,
whose defining module is missing from the sources).  "The registry keeps
only an ordered sequence of currently-live ids, appended on allocation,
removed by value on release"; logical ids are monotonically increasing
integers, so the state also carries the next fresh id. -/
structure MonotonicIds where
  next_id : Nat
  ids : List Nat
deriving DecidableEq, Repr

def initIds : MonotonicIds := ⟨0, []⟩

/-- First position of `x` in a list (the registry's remove-by-value
lookup). -/
def listPos (x : Nat) : List Nat → Option Nat
  | [] => none
  | y :: t => if y = x then some 0 else (listPos x t).map (fun i => i + 1)

/-- Modelled from the spec: `allocate() -> (id, index)` (`add_new_id`,
missing from the sources) "produces the next unused logical id and the
index at which its rule must be inserted (always the current count of
live ids, i.e., append-at-tail)", appending the new id to the live
sequence.  Returns `(id, index, new state)`. -/
def add_new_id (m : MonotonicIds) : Nat × Nat × MonotonicIds :=
  (m.next_id, m.ids.length, ⟨m.next_id + 1, m.ids ++ [m.next_id]⟩)

/-- Modelled from the spec: `release(id) -> index` (`remove_id`, missing
from the sources) "looks up id's current position and removes it from the
live set"; the physical index is the id's rank in the live sequence,
recomputed on demand.  `none` models the `unwrap_throw` on an unknown id. -/
def remove_id (id : Nat) (m : MonotonicIds) : Option (Nat × MonotonicIds) :=
  (listPos id m.ids).map (fun i => (i, ⟨m.next_id, m.ids.eraseIdx i⟩))

/-- One allocate/release operation on the registry. -/
inductive RegOp where
  | alloc : RegOp
  | release : Nat → RegOp
deriving DecidableEq, Repr

def regStep (m : MonotonicIds) : RegOp → MonotonicIds
  | RegOp.alloc => (add_new_id m).2.2
  | RegOp.release id =>
    match remove_id id m with
    | some p => p.2
    | none => m

/-- The registry state after a sequence of allocate/release operations. -/
def runReg (ops : List RegOp) : MonotonicIds := ops.foldl regStep initIds

/-- A registry state reachable by some sequence of operations. -/
def RegReachable (m : MonotonicIds) : Prop := ∃ ops, runReg ops = m

/-- Registry invariant: the live sequence is strictly increasing (ids are
handed out in increasing order and appended at the tail), and every live
id is below the next fresh id. -/
def RegInv (m : MonotonicIds) : Prop :=
  m.ids.Pairwise (· < ·) ∧ ∀ x ∈ m.ids, x < m.next_id

/-! ## The stylesheet owner (`GlobalStyles`) -/

/-- Rule-group descriptor (`StyleGroup`, style.rs:172-182).  Signal
payloads are irrelevant to the structural claims, so dynamic entries are
represented by their names; `resize_handlers` by their count. -/
structure StyleGroup where
  selector : String
  static_css_props : List (String × String × Bool)
  dynamic_css_props : List String
  static_css_classes : List String
  dynamic_css_classes : List String
  resize_handlers : Nat
deriving DecidableEq, Repr

/-- External calls a style-group application can perform, in order.
`addClass` is never emitted by the global-styles path (the source never
touches the class containers there); it exists so that absence of class
application is expressible. -/
inductive Effect where
  | insertRule : String → Nat → Effect
  | setProp : String → String → Bool → Effect
  | spawnTask : String → Effect
  | addClass : String → Effect
  | cancelTask : String → Effect
deriving DecidableEq, Repr

/-- The process-wide stylesheet owner state: the live rule table (each
entry the cssText the rule was inserted with) plus the id registry. -/
structure GlobalStyles where
  sheet : List String
  rule_ids : MonotonicIds
deriving DecidableEq, Repr

/-- Model of `CssStyleSheet::insert_rule_with_index`: valid only for an index not
past the end of the rule table. -/
def insertRuleAt (sheet : List String) (r : String) (i : Nat) : Option (List String) :=
  if i ≤ sheet.length then some (sheet.insertIdx i r) else none

/-- Scoped revocation handle (`StyleGroupHandle`, style.rs:306-309): the
rule's logical id plus the cancellation handles of the spawned binding
tasks (represented by the bound property names). -/
structure StyleGroupHandle where
  rule_id : Nat
  task_handles : List String
deriving DecidableEq, Repr

/-- Embedding of `GlobalStyles::style_group_inner` (style.rs:396-447): asks the
registry for the id/insertion index (the source binds both as the single
`rule_id_and_index`; the modelled registry returns them as a pair),
inserts the empty rule `selector{}` (`none` models the panic on an
invalid selector / out-of-range index), then applies every static
property via `set_css_property` and spawns one binding task per dynamic
property, collecting task handles only when `droppable`.  The classes and
resize handlers of the descriptor are not touched.  Returns the rule id,
the collected task handles, the new state and the trace of performed
external calls. -/
def style_group_inner (st : GlobalStyles) (g : StyleGroup) (droppable : Bool) :
    Option (Nat × List String × GlobalStyles × List Effect) :=
  match insertRuleAt st.sheet (g.selector ++ "\x7b\x7d")
      (add_new_id st.rule_ids).2.1 with
  | none => none
  | some sheet2 =>
    some ((add_new_id st.rule_ids).1,
      (if droppable then g.dynamic_css_props else []),
      ⟨sheet2, (add_new_id st.rule_ids).2.2⟩,
      Effect.insertRule g.selector (add_new_id st.rule_ids).2.1 ::
        (g.static_css_props.map (fun p => Effect.setProp p.1 p.2.1 p.2.2) ++
          g.dynamic_css_props.map Effect.spawnTask))

/-- Embedding of `GlobalStyles::style_group` (style.rs:379-383): permanent application;
the task handles are `mem::forget`-ten, so no handle survives and the
spawned bindings are never cancelled. -/
def style_group (st : GlobalStyles) (g : StyleGroup) :
    Option (GlobalStyles × List Effect) :=
  match style_group_inner st g false with
  | none => none
  | some r => some (r.2.2.1, r.2.2.2)

/-- Embedding of `GlobalStyles::style_group_droppable` (style.rs:385-392): scoped
application returning the handle owning the rule id and the task handles. -/
def style_group_droppable (st : GlobalStyles) (g : StyleGroup) :
    Option (GlobalStyles × StyleGroupHandle × List Effect) :=
  match style_group_inner st g true with
  | none => none
  | some r => some (r.2.2.1, ⟨r.1, r.2.1⟩, r.2.2.2)

/-- Embedding of `GlobalStyles::remove_rule` (style.rs:449-454): asks the registry for
the id's current index, removing it from the live set, then deletes the
stylesheet rule at that index (`none` models the `expect_throw` paths). -/
def remove_rule (st : GlobalStyles) (id : Nat) : Option GlobalStyles :=
  match remove_id id st.rule_ids with
  | none => none
  | some p =>
    if p.1 < st.sheet.length then some ⟨st.sheet.eraseIdx p.1, p.2⟩
    else none

/-- Embedding of `StyleGroupHandle::drop` (style.rs:311-315): the drop body calls
`remove_rule`; the `_task_handles` field is dropped right after the body,
cancelling the binding tasks, all within one synchronous block. -/
def dropHandle (st : GlobalStyles) (h : StyleGroupHandle) : Option GlobalStyles :=
  remove_rule st h.rule_id

/-! ## Dynamic property bindings (style.rs:428-445) -/

/-- One step of the task spawned per dynamic property: on every value its
signal yields it synchronously rewrites the one declaration slot it owns —
a present value is written through `set_css_property` with
`important = false` (the hard-coded `false` at style.rs:433), an absent
value removes the property. -/
def bindingStep (e : Engine) (ps : List String) (d : Decl) (n : String) :
    Option String → Except String Decl
  | some v => set_css_property e ps d n v false
  | none => Except.ok (eraseSlot d n)

/-! ## Cooperative trace model for handle release (claim C2) -/

/-- Scheduler-visible events: rule deletion, task cancellation, and a
write performed by a binding task. -/
inductive Ev where
  | del : Nat → Ev
  | cancel : Nat → Ev
  | write : Nat → Ev
deriving DecidableEq, Repr

/-- The contiguous event block emitted by `StyleGroupHandle::drop`
(style.rs:311-315): the drop body deletes the rule, then the
`_task_handles` field drop cancels every owned task; the whole block is
synchronous (no suspension point), so no other task can run inside it. -/
def dropBlock (ruleId : Nat) (tasks : List Nat) : List Ev :=
  Ev.del ruleId :: tasks.map Ev.cancel

/-! ## Lemmas about declaration blocks -/

lemma getProp_insertSlot_self (d : Decl) (n v : String) (imp : Bool) :
    getProp (insertSlot d n v imp) n = v := by
  simp [getProp, insertSlot]

lemma getProp_eraseSlot_self (d : Decl) (n : String) :
    getProp (eraseSlot d n) n = "" := by
  simp [getProp, eraseSlot]

lemma insertSlot_apply_ne (d : Decl) (n v : String) (imp : Bool) {q : String}
    (h : q ≠ n) : insertSlot d n v imp q = d q := by
  simp [insertSlot, h]

lemma applyWrite_of_empty (e : Engine) (d : Decl) {n v : String} (imp : Bool)
    (hpv : v = "") : applyWrite e d n v imp = eraseSlot d n := by
  unfold applyWrite; rw [if_pos hpv]

lemma applyWrite_of_takes (e : Engine) (d : Decl) {n v : String} (imp : Bool)
    (hpv : ¬v = "") (htk : e.takes n v = true) :
    applyWrite e d n v imp = insertSlot d n v imp := by
  unfold applyWrite; rw [if_neg hpv, if_pos htk]

lemma applyWrite_of_stuck (e : Engine) (d : Decl) {n v : String} (imp : Bool)
    (hpv : ¬v = "") (htk : ¬e.takes n v = true) :
    applyWrite e d n v imp = d := by
  unfold applyWrite; rw [if_neg hpv, if_neg htk]

lemma applyWrite_apply_ne (e : Engine) (d : Decl) (n v : String) (imp : Bool)
    {q : String} (h : q ≠ n) : applyWrite e d n v imp q = d q := by
  by_cases hpv : v = ""
  · rw [applyWrite_of_empty e d imp hpv]; simp [eraseSlot, h]
  · by_cases htk : e.takes n v = true
    · rw [applyWrite_of_takes e d imp hpv htk]; simp [insertSlot, h]
    · rw [applyWrite_of_stuck e d imp hpv htk]

/-- A write whose readback is empty either cleared the slot or left the
whole block unchanged. -/
lemma applyWrite_empty_readback (e : Engine) (d : Decl) (n v : String)
    (imp : Bool) (h : getProp (applyWrite e d n v imp) n = "") :
    applyWrite e d n v imp n = none ∨ applyWrite e d n v imp = d := by
  by_cases hpv : v = ""
  · left; rw [applyWrite_of_empty e d imp hpv]; simp [eraseSlot]
  · by_cases htk : e.takes n v = true
    · rw [applyWrite_of_takes e d imp hpv htk, getProp_insertSlot_self] at h
      exact absurd h hpv
    · right; exact applyWrite_of_stuck e d imp hpv htk

lemma eraseAll_nil (d : Decl) : eraseAll d [] = d := by
  funext q; simp [eraseAll]

lemma eraseSlot_eq_eraseAll (d : Decl) (n : String) :
    eraseSlot d n = eraseAll d [n] := by
  funext q; simp [eraseSlot, eraseAll]

lemma eraseAll_eq_self (d : Decl) (qs : List String)
    (h : ∀ q ∈ qs, d q = none) : eraseAll d qs = d := by
  funext q
  simp only [eraseAll]
  split
  · rename_i hq; exact (h q hq).symm
  · rfl

lemma getProp_eraseAll_mem (d : Decl) (qs : List String) {q : String}
    (h : q ∈ qs) : getProp (eraseAll d qs) q = "" := by
  simp [getProp, eraseAll, h]

lemma getProp_eraseAll_not_mem (d : Decl) (qs : List String) {q : String}
    (h : q ∉ qs) : getProp (eraseAll d qs) q = getProp d q := by
  simp [getProp, eraseAll, h]

lemma eraseSlot_eraseAll (d : Decl) (qs : List String) (n : String) :
    eraseSlot (eraseAll d qs) n = eraseAll d (n :: qs) := by
  funext q
  by_cases hq : q = n <;> simp [eraseSlot, eraseAll, hq]

lemma eraseAll_insertSlot_mem (d : Decl) (qs : List String) (n v : String)
    (imp : Bool) (h : n ∈ qs) :
    eraseAll (insertSlot d n v imp) qs = eraseAll d qs := by
  funext q
  by_cases hq : q ∈ qs
  · simp [eraseAll, hq]
  · have hqn : q ≠ n := fun he => hq (he ▸ h)
    simp [eraseAll, hq, insertSlot, hqn]

lemma eraseAll_insertSlot_not_mem (d : Decl) (qs : List String) (n v : String)
    (imp : Bool) (h : n ∉ qs) :
    eraseAll (insertSlot d n v imp) qs = insertSlot (eraseAll d qs) n v imp := by
  funext q
  by_cases hqn : q = n
  · subst hqn; simp [eraseAll, h, insertSlot]
  · by_cases hq : q ∈ qs <;> simp [eraseAll, hq, insertSlot, hqn]

lemma insertSlot_insertSlot_self (d : Decl) (n v : String) (imp : Bool) :
    insertSlot (insertSlot d n v imp) n v imp = insertSlot d n v imp := by
  funext q
  by_cases hq : q = n <;> simp [insertSlot, hq]

/-! ## Shape of a successful fallback-loop run -/

/-- Unfolding of one accepted loop iteration. -/
lemma setLoop_cons_ok (e : Engine) (n v : String) (imp : Bool)
    (c : String × String) (rest : List (String × String)) (d : Decl)
    (hok : ¬e.ok (c.1 ++ n) (c.2 ++ v) = false) :
    setLoop e n v imp (c :: rest) d =
      if getProp (applyWrite e d (c.1 ++ n) (c.2 ++ v) imp) (c.1 ++ n) = ""
      then setLoop e n v imp rest (applyWrite e d (c.1 ++ n) (c.2 ++ v) imp)
      else Except.ok (applyWrite e d (c.1 ++ n) (c.2 ++ v) imp) := by
  simp only [setLoop]
  rw [if_neg hok]

/-- Unfolding of one rejected loop iteration. -/
lemma setLoop_cons_reject (e : Engine) (n v : String) (imp : Bool)
    (c : String × String) (rest : List (String × String)) (d : Decl)
    (hok : e.ok (c.1 ++ n) (c.2 ++ v) = false) :
    setLoop e n v imp (c :: rest) d = Except.error (rejectMsg) := by
  simp only [setLoop]
  rw [if_pos hok]

/-- A successful loop run only ever clears slots or leaves them alone,
except for the single slot whose readback finally came back non-empty. -/
lemma setLoop_shape (e : Engine) (n v : String) (imp : Bool) :
    ∀ (cs : List (String × String)) (s t : Decl),
      setLoop e n v imp cs s = Except.ok t →
      ∃ p, getProp t p ≠ "" ∧ ∀ q, q ≠ p → t q = s q ∨ t q = none := by
  intro cs
  induction cs with
  | nil => intro s t h; simp [setLoop] at h
  | cons c rest ih =>
    intro s t h
    by_cases hok : e.ok (c.1 ++ n) (c.2 ++ v) = false
    · rw [setLoop_cons_reject e n v imp c rest s hok] at h
      exact absurd h (by simp)
    · rw [setLoop_cons_ok e n v imp c rest s hok] at h
      by_cases hrb :
          getProp (applyWrite e s (c.1 ++ n) (c.2 ++ v) imp) (c.1 ++ n) = ""
      · rw [if_pos hrb] at h
        obtain ⟨p, hp, hfar⟩ := ih _ _ h
        refine ⟨p, hp, ?_⟩
        intro q hq
        rcases hfar q hq with hcase | hcase
        · by_cases hqpn : q = c.1 ++ n
          · subst hqpn
            rcases applyWrite_empty_readback e s (c.1 ++ n) (c.2 ++ v) imp hrb
              with hnone | hsame
            · right; rw [hcase, hnone]
            · left; rw [hcase, hsame]
          · left; rw [hcase, applyWrite_apply_ne e s _ _ imp hqpn]
        · right; exact hcase
      · rw [if_neg hrb] at h
        have ht : t = applyWrite e s (c.1 ++ n) (c.2 ++ v) imp :=
          (Except.ok.inj h).symm
        refine ⟨c.1 ++ n, ?_, ?_⟩
        · rw [ht]; exact hrb
        · intro q hq
          left
          rw [ht, applyWrite_apply_ne e s _ _ imp hq]

/-- Re-running the fallback loop after clearing, in the produced state,
any set of slots that were empty in the starting state reproduces the
produced state. -/
lemma setLoop_eraseAll (e : Engine) (n v : String) (imp : Bool) :
    ∀ (cs : List (String × String)) (s t : Decl) (qs : List String),
      setLoop e n v imp cs s = Except.ok t →
      (∀ q ∈ qs, s q = none) →
      setLoop e n v imp cs (eraseAll t qs) = Except.ok t := by
  intro cs
  induction cs with
  | nil => intro s t qs h _; simp [setLoop] at h
  | cons c rest ih =>
    intro s t qs h hqs
    by_cases hok : e.ok (c.1 ++ n) (c.2 ++ v) = false
    · rw [setLoop_cons_reject e n v imp c rest s hok] at h
      exact absurd h (by simp)
    · rw [setLoop_cons_ok e n v imp c rest s hok] at h
      rw [setLoop_cons_ok e n v imp c rest (eraseAll t qs) hok]
      by_cases hrb :
          getProp (applyWrite e s (c.1 ++ n) (c.2 ++ v) imp) (c.1 ++ n) = ""
      · -- the head combination failed in the first run
        rw [if_pos hrb] at h
        by_cases hpv : c.2 ++ v = ""
        · -- the head write cleared its slot
          rw [applyWrite_of_empty e s imp hpv] at h
          have hqs2 : ∀ q ∈ (c.1 ++ n) :: qs, eraseSlot s (c.1 ++ n) q = none := by
            intro q hq
            rcases List.mem_cons.mp hq with hq | hq
            · subst hq; simp [eraseSlot]
            · by_cases hqe : q = c.1 ++ n
              · subst hqe; simp [eraseSlot]
              · simp [eraseSlot, hqe, hqs q hq]
          have hrec := ih _ _ _ h hqs2
          rw [applyWrite_of_empty e (eraseAll t qs) imp hpv, eraseSlot_eraseAll]
          rw [if_pos (getProp_eraseAll_mem t _ (List.mem_cons_self _ _))]
          exact hrec
        · by_cases htk : e.takes (c.1 ++ n) (c.2 ++ v) = true
          · -- an accepted, supported, non-empty write cannot read back empty
            rw [applyWrite_of_takes e s imp hpv htk, getProp_insertSlot_self] at hrb
            exact absurd hrb hpv
          · -- the head write left the block unchanged
            rw [applyWrite_of_stuck e s imp hpv htk] at h hrb
            have hrec := ih _ _ _ h hqs
            rw [applyWrite_of_stuck e (eraseAll t qs) imp hpv htk]
            by_cases hmem : c.1 ++ n ∈ qs
            · rw [if_pos (getProp_eraseAll_mem t _ hmem)]
              exact hrec
            · rw [getProp_eraseAll_not_mem t _ hmem]
              by_cases hg : getProp t (c.1 ++ n) = ""
              · rw [if_pos hg]; exact hrec
              · rw [if_neg hg]
                -- every slot in `qs` is still clear in `t`
                obtain ⟨p, hp, hfar⟩ := setLoop_shape e n v imp _ _ _ h
                have hpqs : p ∉ qs := by
                  intro hpmem
                  have hne : c.1 ++ n ≠ p := fun he => hmem (he ▸ hpmem)
                  rcases hfar _ hne with hc | hc
                  · rw [getProp, hc] at hg
                    rw [getProp] at hrb
                    exact hg hrb
                  · rw [getProp, hc] at hg
                    exact hg rfl
                have hall : ∀ q ∈ qs, t q = none := by
                  intro q hq
                  have hne : q ≠ p := fun he => hpqs (he ▸ hq)
                  rcases hfar q hne with hc | hc
                  · rw [hc]; exact hqs q hq
                  · exact hc
                rw [eraseAll_eq_self t qs hall]
      · -- the head combination succeeded in the first run
        rw [if_neg hrb] at h
        have ht : t = applyWrite e s (c.1 ++ n) (c.2 ++ v) imp :=
          (Except.ok.inj h).symm
        by_cases hpv : c.2 ++ v = ""
        · rw [applyWrite_of_empty e s imp hpv, getProp_eraseSlot_self] at hrb
          exact absurd rfl hrb
        · by_cases htk : e.takes (c.1 ++ n) (c.2 ++ v) = true
          · rw [applyWrite_of_takes e s imp hpv htk] at ht hrb
            by_cases hmem : c.1 ++ n ∈ qs
            · have hx : eraseAll t qs = s := by
                rw [ht, eraseAll_insertSlot_mem _ _ _ _ _ hmem,
                  eraseAll_eq_self s qs hqs]
              rw [hx, applyWrite_of_takes e s imp hpv htk, if_neg hrb, ← ht]
            · have hx : eraseAll t qs = t := by
                rw [ht, eraseAll_insertSlot_not_mem _ _ _ _ _ hmem,
                  eraseAll_eq_self s qs hqs, ← ht]
              have hw2 : applyWrite e t (c.1 ++ n) (c.2 ++ v) imp = t := by
                rw [applyWrite_of_takes e t imp hpv htk, ht,
                  insertSlot_insertSlot_self]
              have hg : ¬getProp t (c.1 ++ n) = "" := by
                rw [ht, getProp_insertSlot_self]; exact hpv
              rw [hx, hw2, if_neg hg]
          · rw [applyWrite_of_stuck e s imp hpv htk] at ht hrb
            subst ht
            by_cases hmem : c.1 ++ n ∈ qs
            · rw [getProp, hqs _ hmem] at hrb
              exact absurd rfl hrb
            · rw [eraseAll_eq_self t qs hqs,
                applyWrite_of_stuck e t imp hpv htk, if_neg hrb]


/-! ## Unfolding lemmas for `set_css_property` -/

lemma set_css_property_of_reject (e : Engine) (ps : List String) (d : Decl)
    (n v : String) (imp : Bool) (hok : e.ok n v = false) :
    set_css_property e ps d n v imp = Except.ok d := by
  unfold set_css_property
  rw [if_pos hok]

lemma set_css_property_of_ok (e : Engine) (ps : List String) (d : Decl)
    (n v : String) (imp : Bool) (hok : ¬e.ok n v = false) :
    set_css_property e ps d n v imp =
      if getProp (applyWrite e d n v imp) n = ""
      then setLoop e n v imp (allCombos ps) (applyWrite e d n v imp)
      else Except.ok (applyWrite e d n v imp) := by
  unfold set_css_property
  rw [if_neg hok]

/-- C9. For every `(name, value, important)` input and every initial
declaration state, applying `set_css_property` twice with the same
arguments yields the same final declaration state as applying it once:
whenever the first application returns normally with state `t`, the second
application, run on `t`, returns `t` again. -/
theorem C9_set_css_property_idempotent (e : Engine) (ps : List String)
    (d : Decl) (n v : String) (imp : Bool) (t : Decl)
    (h : set_css_property e ps d n v imp = Except.ok t) :
    set_css_property e ps t n v imp = Except.ok t := by
  by_cases hok : e.ok n v = false
  · rw [set_css_property_of_reject e ps d n v imp hok] at h
    have ht : t = d := (Except.ok.inj h).symm
    subst ht
    exact set_css_property_of_reject e ps t n v imp hok
  · rw [set_css_property_of_ok e ps d n v imp hok] at h
    rw [set_css_property_of_ok e ps t n v imp hok]
    by_cases hrb : getProp (applyWrite e d n v imp) n = ""
    · -- the verbatim write read back empty; the fallback loop produced `t`
      rw [if_pos hrb] at h
      by_cases hpv : v = ""
      · rw [applyWrite_of_empty e t imp hpv, eraseSlot_eq_eraseAll]
        rw [if_pos (getProp_eraseAll_mem t _ (List.mem_cons_self _ _))]
        refine setLoop_eraseAll e n v imp _ _ _ _ h ?_
        intro q hq
        rcases List.mem_singleton.mp hq with hq
        subst hq
        rw [applyWrite_of_empty e d imp hpv]
        simp [eraseSlot]
      · by_cases htk : e.takes n v = true
        · rw [applyWrite_of_takes e d imp hpv htk, getProp_insertSlot_self] at hrb
          exact absurd hrb hpv
        · rw [applyWrite_of_stuck e d imp hpv htk] at h hrb
          rw [applyWrite_of_stuck e t imp hpv htk]
          by_cases hg : getProp t n = ""
          · rw [if_pos hg]
            have hx := setLoop_eraseAll e n v imp (allCombos ps) d t [] h
              (by simp)
            rw [eraseAll_nil] at hx
            exact hx
          · rw [if_neg hg]
    · -- the verbatim write succeeded immediately
      rw [if_neg hrb] at h
      have ht : t = applyWrite e d n v imp := (Except.ok.inj h).symm
      by_cases hpv : v = ""
      · rw [applyWrite_of_empty e d imp hpv, getProp_eraseSlot_self] at hrb
        exact absurd rfl hrb
      · by_cases htk : e.takes n v = true
        · rw [applyWrite_of_takes e d imp hpv htk] at ht
          have hw2 : applyWrite e t n v imp = t := by
            rw [applyWrite_of_takes e t imp hpv htk, ht,
              insertSlot_insertSlot_self]
          have hg : ¬getProp t n = "" := by
            rw [ht, getProp_insertSlot_self]; exact hpv
          rw [hw2, if_neg hg]
        · rw [applyWrite_of_stuck e d imp hpv htk] at ht
          subst ht
          rw [applyWrite_of_stuck e t imp hpv htk] at hrb ⊢
          rw [if_neg hrb]

/-- Witness for C9 at a concrete engine, declaration and input. -/
theorem C9_witness :
    set_css_property ⟨fun _ _ => true, fun _ _ => true⟩ [] emptyDecl
        "color" "red" false
      = Except.ok (insertSlot emptyDecl "color" "red" false) ∧
    set_css_property ⟨fun _ _ => true, fun _ _ => true⟩ []
        (insertSlot emptyDecl "color" "red" false) "color" "red" false
      = Except.ok (insertSlot emptyDecl "color" "red" false) :=
  ⟨rfl, C9_set_css_property_idempotent ⟨fun _ _ => true, fun _ _ => true⟩ []
    emptyDecl "color" "red" false (insertSlot emptyDecl "color" "red" false) rfl⟩

/-! ## First-success decomposition of the fallback search (C3) -/

lemma applySeq_nil (e : Engine) (n v : String) (imp : Bool) (s : Decl) :
    applySeq e n v imp [] s = s := rfl

lemma applySeq_cons (e : Engine) (n v : String) (imp : Bool)
    (c : String × String) (cs : List (String × String)) (s : Decl) :
    applySeq e n v imp (c :: cs) s
      = applySeq e n v imp cs (applyWrite e s (c.1 ++ n) (c.2 ++ v) imp) := rfl

/-- A successful loop run is exactly: a prefix of combinations that were
each written and read back empty, followed by the first combination whose
readback was non-empty, whose post-write state is returned; the
combinations after it are never applied. -/
lemma setLoop_first_success (e : Engine) (n v : String) (imp : Bool) :
    ∀ (cs : List (String × String)) (s t : Decl),
      setLoop e n v imp cs s = Except.ok t →
      ∃ cs₁ c cs₂, cs = cs₁ ++ c :: cs₂ ∧
        t = applySeq e n v imp (cs₁ ++ [c]) s ∧
        getProp t (c.1 ++ n) ≠ "" ∧
        ∀ pre c' post, cs₁ = pre ++ c' :: post →
          getProp (applySeq e n v imp (pre ++ [c']) s) (c'.1 ++ n) = "" := by
  intro cs
  induction cs with
  | nil => intro s t h; simp [setLoop] at h
  | cons c rest ih =>
    intro s t h
    by_cases hok : e.ok (c.1 ++ n) (c.2 ++ v) = false
    · rw [setLoop_cons_reject e n v imp c rest s hok] at h
      exact absurd h (by simp)
    · rw [setLoop_cons_ok e n v imp c rest s hok] at h
      by_cases hrb :
          getProp (applyWrite e s (c.1 ++ n) (c.2 ++ v) imp) (c.1 ++ n) = ""
      · rw [if_pos hrb] at h
        obtain ⟨cs₁, c', cs₂, hsplit, ht, hne, hpre⟩ := ih _ _ h
        refine ⟨c :: cs₁, c', cs₂, by rw [List.cons_append, hsplit], ?_, hne, ?_⟩
        · rw [List.cons_append, applySeq_cons]
          exact ht
        · intro pre c2 post hp
          rcases pre with _ | ⟨a, pre⟩
          · simp only [List.nil_append] at hp ⊢
            obtain ⟨hc2, _⟩ := List.cons.inj hp
            subst hc2
            rw [applySeq_cons, applySeq_nil]
            exact hrb
          · rw [List.cons_append] at hp
            obtain ⟨ha, hrest⟩ := List.cons.inj hp
            subst ha
            rw [List.cons_append, applySeq_cons]
            exact hpre pre c2 post hrest
      · rw [if_neg hrb] at h
        have ht : t = applyWrite e s (c.1 ++ n) (c.2 ++ v) imp :=
          (Except.ok.inj h).symm
        refine ⟨[], c, rest, rfl, ?_, ?_, ?_⟩
        · rw [List.nil_append, applySeq_cons, applySeq_nil]
          exact ht
        · rw [ht]; exact hrb
        · intro pre c' post hp
          exact absurd hp (by simp)

/-- C3. If the accepted verbatim write of `(n, v, imp)` reads back empty
and `set_css_property` returns normally, then the routine ran the cross
product of prefix combinations `allCombos ps` (empty prefix first,
name-prefix outer, value-prefix inner), writing each prefixed pair in
order and re-checking the slot: there is a decomposition of the
combination list into a prefix of combinations whose readbacks were all
empty, the first successful combination — whose post-write state is the
result — and a suffix that is never applied. -/
theorem C3_fallback_first_success (e : Engine) (ps : List String) (d : Decl)
    (n v : String) (imp : Bool) (t : Decl)
    (hok : e.ok n v = true)
    (hrb : getProp (applyWrite e d n v imp) n = "")
    (h : set_css_property e ps d n v imp = Except.ok t) :
    ∃ cs₁ c cs₂, allCombos ps = cs₁ ++ c :: cs₂ ∧
      t = applySeq e n v imp (cs₁ ++ [c]) (applyWrite e d n v imp) ∧
      getProp t (c.1 ++ n) ≠ "" ∧
      ∀ pre c' post, cs₁ = pre ++ c' :: post →
        getProp (applySeq e n v imp (pre ++ [c']) (applyWrite e d n v imp))
          (c'.1 ++ n) = "" := by
  rw [set_css_property_of_ok e ps d n v imp (by rw [hok]; simp),
    if_pos hrb] at h
  exact setLoop_first_success e n v imp _ _ _ h

/-- Witness for C3: an engine that only supports the prefixed-name form
`-w-x: y`; the fallback stops at the third combination `("-w-", "")`. -/
theorem C3_witness :
    ∃ cs₁ c cs₂,
      allCombos ["-w-"] = cs₁ ++ c :: cs₂ ∧
      insertSlot emptyDecl "-w-x" "y" false
        = applySeq ⟨fun _ _ => true, fun a b => a == "-w-x" && b == "y"⟩
            "x" "y" false (cs₁ ++ [c])
            (applyWrite ⟨fun _ _ => true, fun a b => a == "-w-x" && b == "y"⟩
              emptyDecl "x" "y" false) ∧
      getProp (insertSlot emptyDecl "-w-x" "y" false) (c.1 ++ "x") ≠ "" ∧
      ∀ pre c' post, cs₁ = pre ++ c' :: post →
        getProp
          (applySeq ⟨fun _ _ => true, fun a b => a == "-w-x" && b == "y"⟩
            "x" "y" false (pre ++ [c'])
            (applyWrite ⟨fun _ _ => true, fun a b => a == "-w-x" && b == "y"⟩
              emptyDecl "x" "y" false))
          (c'.1 ++ "x") = "" :=
  C3_fallback_first_success
    ⟨fun _ _ => true, fun a b => a == "-w-x" && b == "y"⟩ ["-w-"]
    emptyDecl "x" "y" false (insertSlot emptyDecl "-w-x" "y" false)
    rfl rfl rfl

/-! ## Engine rejections in the fallback loop (C4) -/

/-- If the loop processes a prefix of combinations that are all accepted
but read back empty, and then meets a combination whose write the engine
rejects, it aborts with the `expect_throw` error. -/
lemma setLoop_reject_surfaces (e : Engine) (n v : String) (imp : Bool) :
    ∀ (cs₁ : List (String × String)) (c : String × String)
      (cs₂ : List (String × String)) (s : Decl),
      (∀ pre c' post, cs₁ = pre ++ c' :: post →
        ¬e.ok (c'.1 ++ n) (c'.2 ++ v) = false ∧
        getProp (applySeq e n v imp (pre ++ [c']) s) (c'.1 ++ n) = "") →
      e.ok (c.1 ++ n) (c.2 ++ v) = false →
      setLoop e n v imp (cs₁ ++ c :: cs₂) s = Except.error (rejectMsg) := by
  intro cs₁
  induction cs₁ with
  | nil =>
    intro c cs₂ s _ hc
    rw [List.nil_append]
    exact setLoop_cons_reject e n v imp c cs₂ s hc
  | cons a cs₁ ih =>
    intro c cs₂ s hpre hc
    obtain ⟨haok, harb⟩ := hpre [] a cs₁ rfl
    rw [List.nil_append, applySeq_cons, applySeq_nil] at harb
    rw [List.cons_append, setLoop_cons_ok e n v imp a _ s haok, if_pos harb]
    refine ih c cs₂ _ ?_ hc
    intro pre c' post hp
    obtain ⟨hok2, hrb2⟩ := hpre (a :: pre) c' post (by rw [hp, List.cons_append])
    rw [List.cons_append, applySeq_cons] at hrb2
    exact ⟨hok2, hrb2⟩

/-- C4 counterexample: an engine that accepts only the exact value `"v"`.
The verbatim write of `("n", "v")` is accepted but unsupported, so the
fallback search starts; its second combination prefixes the value
(`-webkit-v`), the engine rejects it, and `set_css_property` aborts with
the `expect_throw` error — the rejection is surfaced to the caller and
the search does not continue, contradicting the claim that every
single-combination rejection is absorbed transparently. -/
theorem C4_counterexample :
    set_css_property ⟨fun _ b => b == "v", fun _ _ => false⟩ VENDOR_PREFIXES
      emptyDecl "n" "v" false = Except.error (rejectMsg) := rfl

/-- C4 amended: only a rejection of the *initial verbatim* write is
absorbed (logged and swallowed, the routine returning with the
declaration unchanged and without attempting any prefix combination); a
rejection of a combination inside the fallback loop is fatal: after a
prefix of accepted-but-empty combinations, the first rejected combination
aborts the routine with the `expect_throw` diagnostic. -/
theorem C4_amended_rejection_handling :
    (∀ (e : Engine) (ps : List String) (d : Decl) (n v : String) (imp : Bool),
      e.ok n v = false → set_css_property e ps d n v imp = Except.ok d) ∧
    (∀ (e : Engine) (ps : List String) (d : Decl) (n v : String) (imp : Bool)
      (cs₁ : List (String × String)) (c : String × String)
      (cs₂ : List (String × String)),
      e.ok n v = true →
      getProp (applyWrite e d n v imp) n = "" →
      allCombos ps = cs₁ ++ c :: cs₂ →
      (∀ pre c' post, cs₁ = pre ++ c' :: post →
        ¬e.ok (c'.1 ++ n) (c'.2 ++ v) = false ∧
        getProp (applySeq e n v imp (pre ++ [c']) (applyWrite e d n v imp))
          (c'.1 ++ n) = "") →
      e.ok (c.1 ++ n) (c.2 ++ v) = false →
      set_css_property e ps d n v imp = Except.error (rejectMsg)) := by
  constructor
  · intro e ps d n v imp hok
    exact set_css_property_of_reject e ps d n v imp hok
  · intro e ps d n v imp cs₁ c cs₂ hok hrb hsplit hpre hc
    rw [set_css_property_of_ok e ps d n v imp (by rw [hok]; simp),
      if_pos hrb, hsplit]
    exact setLoop_reject_surfaces e n v imp cs₁ c cs₂ _ hpre hc

/-- Witness for C4 (amended): both branches at concrete inputs — a
rejected verbatim write is absorbed, and a rejected loop combination
aborts. -/
theorem C4_witness :
    set_css_property ⟨fun _ _ => false, fun _ _ => false⟩ [] emptyDecl
      "a" "b" true = Except.ok emptyDecl ∧
    set_css_property ⟨fun _ b => b == "v", fun _ _ => false⟩ ["-w-"]
      emptyDecl "n" "v" false = Except.error (rejectMsg) :=
  ⟨C4_amended_rejection_handling.1 ⟨fun _ _ => false, fun _ _ => false⟩ []
      emptyDecl "a" "b" true rfl,
   C4_amended_rejection_handling.2 ⟨fun _ b => b == "v", fun _ _ => false⟩
      ["-w-"] emptyDecl "n" "v" false [("", "")] ("", "-w-")
      [("-w-", ""), ("-w-", "-w-")] rfl rfl rfl
      (by
        intro pre c' post hp
        rcases pre with _ | ⟨a, pre⟩
        · obtain ⟨h1, h2⟩ := List.cons.inj hp
          subst h1
          exact ⟨by decide, rfl⟩
        · obtain ⟨h1, h2⟩ := List.cons.inj hp
          exact absurd h2 (by simp))
      rfl⟩

/-! ## Exhaustion of the fallback search (C5) -/

lemma getProp_eraseSlot_of_empty (d : Decl) (n q : String)
    (h : getProp d q = "") : getProp (eraseSlot d n) q = "" := by
  by_cases hq : q = n
  · rw [hq]; exact getProp_eraseSlot_self d n
  · rw [getProp, eraseSlot]
    simp only [if_neg hq]
    rw [getProp] at h
    exact h

lemma mem_allCombos (ps : List String) (c : String × String)
    (h : c ∈ allCombos ps) : c.1 ∈ "" :: ps ∧ c.2 ∈ "" :: ps := by
  simp only [allCombos, List.mem_flatMap, List.mem_map] at h
  obtain ⟨np, hnp, vp, hvp, he⟩ := h
  subst he
  exact ⟨hnp, hvp⟩

/-- If every combination is accepted but none is supported (or its value
is empty), starting from a state where every prefixed slot is clear, the
loop exhausts the list and reaches the final `panic!`. -/
lemma setLoop_exhaust (e : Engine) (n v : String) (imp : Bool) :
    ∀ (cs : List (String × String)) (s : Decl),
      (∀ c ∈ cs, ¬e.ok (c.1 ++ n) (c.2 ++ v) = false) →
      (∀ c ∈ cs, e.takes (c.1 ++ n) (c.2 ++ v) = false ∨ c.2 ++ v = "") →
      (∀ c ∈ cs, getProp s (c.1 ++ n) = "") →
      setLoop e n v imp cs s = Except.error (panicMsg n v) := by
  intro cs
  induction cs with
  | nil => intro s _ _ _; rfl
  | cons c rest ih =>
    intro s hok htk hemp
    rw [setLoop_cons_ok e n v imp c rest s (hok c (List.mem_cons_self _ _))]
    rcases htk c (List.mem_cons_self _ _) with hstuck | hpv
    · by_cases hpv : c.2 ++ v = ""
      · rw [applyWrite_of_empty e s imp hpv, getProp_eraseSlot_self,
          if_pos rfl]
        refine ih _ ?_ ?_ ?_
        · intro c2 h2; exact hok c2 (List.mem_cons_of_mem _ h2)
        · intro c2 h2; exact htk c2 (List.mem_cons_of_mem _ h2)
        · intro c2 h2
          exact getProp_eraseSlot_of_empty s _ _
            (hemp c2 (List.mem_cons_of_mem _ h2))
      · rw [applyWrite_of_stuck e s imp hpv (by rw [hstuck]; simp)]
        rw [if_pos (hemp c (List.mem_cons_self _ _))]
        refine ih _ ?_ ?_ ?_
        · intro c2 h2; exact hok c2 (List.mem_cons_of_mem _ h2)
        · intro c2 h2; exact htk c2 (List.mem_cons_of_mem _ h2)
        · intro c2 h2; exact hemp c2 (List.mem_cons_of_mem _ h2)
    · rw [applyWrite_of_empty e s imp hpv, getProp_eraseSlot_self, if_pos rfl]
      refine ih _ ?_ ?_ ?_
      · intro c2 h2; exact hok c2 (List.mem_cons_of_mem _ h2)
      · intro c2 h2; exact htk c2 (List.mem_cons_of_mem _ h2)
      · intro c2 h2
        exact getProp_eraseSlot_of_empty s _ _
          (hemp c2 (List.mem_cons_of_mem _ h2))

/-- C5. If the verbatim write and every prefix combination in the cross
product are accepted by the engine but none stores a readable value
(starting from a declaration whose relevant slots are clear), the routine
exhausts the search and aborts with the fatal diagnostic, which names the
failing property/value pair verbatim. -/
theorem C5_exhaustion_is_fatal (e : Engine) (ps : List String) (d : Decl)
    (n v : String) (imp : Bool)
    (hok : ∀ np ∈ "" :: ps, ∀ vp ∈ "" :: ps,
      e.ok (np ++ n) (vp ++ v) = true)
    (htk : ∀ np ∈ "" :: ps, ∀ vp ∈ "" :: ps,
      e.takes (np ++ n) (vp ++ v) = false ∨ vp ++ v = "")
    (hemp : ∀ np ∈ "" :: ps, getProp d (np ++ n) = "") :
    set_css_property e ps d n v imp = Except.error (panicMsg n v) ∧
    panicMsg n v = "invalid CSS property: `" ++ n ++ ": " ++ v ++ ";`" := by
  have hmem : ("" : String) ∈ "" :: ps := List.mem_cons_self _ _
  have hokv : e.ok n v = true := by
    have h := hok "" hmem "" hmem
    rwa [String.empty_append, String.empty_append] at h
  have hrb : getProp (applyWrite e d n v imp) n = "" := by
    rcases htk "" hmem "" hmem with hstuck | hpv
    · rw [String.empty_append, String.empty_append] at hstuck
      by_cases hpv : v = ""
      · rw [applyWrite_of_empty e d imp hpv]
        exact getProp_eraseSlot_self d n
      · rw [applyWrite_of_stuck e d imp hpv (by rw [hstuck]; simp)]
        have h := hemp "" hmem
        rwa [String.empty_append] at h
    · rw [String.empty_append] at hpv
      rw [applyWrite_of_empty e d imp hpv]
      exact getProp_eraseSlot_self d n
  refine ⟨?_, rfl⟩
  rw [set_css_property_of_ok e ps d n v imp (by rw [hokv]; simp), if_pos hrb]
  refine setLoop_exhaust e n v imp _ _ ?_ ?_ ?_
  · intro c hc
    obtain ⟨h1, h2⟩ := mem_allCombos ps c hc
    rw [hok c.1 h1 c.2 h2]
    simp
  · intro c hc
    obtain ⟨h1, h2⟩ := mem_allCombos ps c hc
    exact htk c.1 h1 c.2 h2
  · intro c hc
    obtain ⟨h1, _⟩ := mem_allCombos ps c hc
    rcases htk "" hmem "" hmem with hstuck | hpv
    · rw [String.empty_append, String.empty_append] at hstuck
      by_cases hpv : v = ""
      · rw [applyWrite_of_empty e d imp hpv]
        exact getProp_eraseSlot_of_empty d _ _ (hemp c.1 h1)
      · rw [applyWrite_of_stuck e d imp hpv (by rw [hstuck]; simp)]
        exact hemp c.1 h1
    · rw [String.empty_append] at hpv
      rw [applyWrite_of_empty e d imp hpv]
      exact getProp_eraseSlot_of_empty d _ _ (hemp c.1 h1)

/-- Witness for C5: an engine that accepts everything but supports
nothing; the search exhausts and panics with the pair-naming message. -/
theorem C5_witness :
    set_css_property ⟨fun _ _ => true, fun _ _ => false⟩ ["-w-"] emptyDecl
      "n" "v" false = Except.error (panicMsg "n" "v") ∧
    panicMsg "n" "v" = "invalid CSS property: `" ++ "n" ++ ": " ++ "v" ++ ";`" :=
  C5_exhaustion_is_fatal ⟨fun _ _ => true, fun _ _ => false⟩ ["-w-"]
    emptyDecl "n" "v" false
    (by intro np _ vp _; rfl)
    (by intro np _ vp _; left; rfl)
    (by intro np _; rfl)

/-! ## Dynamic binding semantics (C6) -/

/-- C6. A dynamic property binding rewrites exactly the one declaration
slot it owns on every value its signal yields: an absent value removes
the property; a present value (accepted and supported by the engine) sets
it.  In particular a `display` binding fed `some "block"`, `none`,
`some "block"` produces the declaration states `display = block`,
property absent, `display = block`, in that order. -/
theorem C6_binding_step_semantics :
    (∀ (e : Engine) (ps : List String) (d : Decl) (nm : String),
      bindingStep e ps d nm none = Except.ok (eraseSlot d nm)) ∧
    (∀ (e : Engine) (ps : List String) (d : Decl) (nm val : String),
      e.ok nm val = true → e.takes nm val = true → ¬val = "" →
      bindingStep e ps d nm (some val)
        = Except.ok (insertSlot d nm val false)) ∧
    (bindingStep ⟨fun _ _ => true, fun a b => a == "display" && b == "block"⟩
        VENDOR_PREFIXES emptyDecl "display" (some "block")
        = Except.ok (insertSlot emptyDecl "display" "block" false) ∧
      getProp (insertSlot emptyDecl "display" "block" false) "display"
        = "block" ∧
      bindingStep ⟨fun _ _ => true, fun a b => a == "display" && b == "block"⟩
        VENDOR_PREFIXES (insertSlot emptyDecl "display" "block" false)
        "display" none
        = Except.ok
            (eraseSlot (insertSlot emptyDecl "display" "block" false)
              "display") ∧
      getProp
        (eraseSlot (insertSlot emptyDecl "display" "block" false) "display")
        "display" = "" ∧
      bindingStep ⟨fun _ _ => true, fun a b => a == "display" && b == "block"⟩
        VENDOR_PREFIXES
        (eraseSlot (insertSlot emptyDecl "display" "block" false) "display")
        "display" (some "block")
        = Except.ok
            (insertSlot
              (eraseSlot (insertSlot emptyDecl "display" "block" false)
                "display")
              "display" "block" false) ∧
      getProp
        (insertSlot
          (eraseSlot (insertSlot emptyDecl "display" "block" false) "display")
          "display" "block" false)
        "display" = "block") := by
  refine ⟨fun e ps d nm => rfl, ?_, rfl, rfl, rfl, rfl, rfl, rfl⟩
  intro e ps d nm val hok htk hv
  show set_css_property e ps d nm val false
    = Except.ok (insertSlot d nm val false)
  rw [set_css_property_of_ok e ps d nm val false (by rw [hok]; simp),
    applyWrite_of_takes e d false hv htk, getProp_insertSlot_self,
    if_neg hv]

/-- Witness for C6 at a concrete engine and input. -/
theorem C6_witness :
    bindingStep ⟨fun _ _ => true, fun a b => a == "display" && b == "block"⟩
      [] emptyDecl "display" (some "block")
      = Except.ok (insertSlot emptyDecl "display" "block" false) :=
  C6_binding_step_semantics.2.1
    ⟨fun _ _ => true, fun a b => a == "display" && b == "block"⟩ []
    emptyDecl "display" "block" rfl rfl (by decide)

/-! ## Dynamic writes never carry `!important` (C10) -/

lemma applyWrite_flags (e : Engine) (s : Decl) (pn pv : String) (q : String) :
    applyWrite e s pn pv false q = s q ∨ applyWrite e s pn pv false q = none ∨
      ∃ w, applyWrite e s pn pv false q = some (w, false) := by
  by_cases hpv : pv = ""
  · rw [applyWrite_of_empty e s false hpv]
    by_cases hq : q = pn
    · right; left; simp [eraseSlot, hq]
    · left; simp [eraseSlot, hq]
  · by_cases htk : e.takes pn pv = true
    · rw [applyWrite_of_takes e s false hpv htk]
      by_cases hq : q = pn
      · right; right; exact ⟨pv, by simp [insertSlot, hq]⟩
      · left; simp [insertSlot, hq]
    · rw [applyWrite_of_stuck e s false hpv htk]
      left; rfl

lemma setLoop_flags (e : Engine) (n v : String) :
    ∀ (cs : List (String × String)) (s t : Decl),
      setLoop e n v false cs s = Except.ok t →
      ∀ q, t q = s q ∨ t q = none ∨ ∃ w, t q = some (w, false) := by
  intro cs
  induction cs with
  | nil => intro s t h; simp [setLoop] at h
  | cons c rest ih =>
    intro s t h q
    by_cases hok : e.ok (c.1 ++ n) (c.2 ++ v) = false
    · rw [setLoop_cons_reject e n v false c rest s hok] at h
      exact absurd h (by simp)
    · rw [setLoop_cons_ok e n v false c rest s hok] at h
      by_cases hrb :
          getProp (applyWrite e s (c.1 ++ n) (c.2 ++ v) false) (c.1 ++ n) = ""
      · rw [if_pos hrb] at h
        rcases ih _ _ h q with hcase | hcase | hcase
        · rw [hcase]
          exact applyWrite_flags e s (c.1 ++ n) (c.2 ++ v) q
        · right; left; exact hcase
        · right; right; exact hcase
      · rw [if_neg hrb] at h
        have ht : t = applyWrite e s (c.1 ++ n) (c.2 ++ v) false :=
          (Except.ok.inj h).symm
        rw [ht]
        exact applyWrite_flags e s (c.1 ++ n) (c.2 ++ v) q

/-- C10. Every write performed by a dynamic property binding uses
non-important priority: whatever state the binding's `set_css_property`
call (hard-coded `important = false`) produces, every slot it changed is
either removed or holds a value flagged non-important — even when the
initial declaration held the same property with `important = true`. -/
theorem C10_dynamic_writes_not_important (e : Engine) (ps : List String)
    (d : Decl) (nm val : String) (t : Decl)
    (h : bindingStep e ps d nm (some val) = Except.ok t) :
    ∀ q, t q = d q ∨ t q = none ∨ ∃ w, t q = some (w, false) := by
  intro q
  have h2 : set_css_property e ps d nm val false = Except.ok t := h
  by_cases hok : e.ok nm val = false
  · rw [set_css_property_of_reject e ps d nm val false hok] at h2
    left
    rw [← (Except.ok.inj h2)]
  · rw [set_css_property_of_ok e ps d nm val false hok] at h2
    by_cases hrb : getProp (applyWrite e d nm val false) nm = ""
    · rw [if_pos hrb] at h2
      rcases setLoop_flags e nm val _ _ _ h2 q with hcase | hcase | hcase
      · rw [hcase]
        exact applyWrite_flags e d nm val q
      · right; left; exact hcase
      · right; right; exact hcase
    · rw [if_neg hrb] at h2
      have ht : t = applyWrite e d nm val false := (Except.ok.inj h2).symm
      rw [ht]
      exact applyWrite_flags e d nm val q

/-- Witness for C10: the initial declaration holds `display` as an
important static value; the dynamic write replaces it with a
non-important one. -/
theorem C10_witness :
    insertSlot (insertSlot emptyDecl "display" "none" true) "display"
        "block" false "display"
      = insertSlot emptyDecl "display" "none" true "display" ∨
    insertSlot (insertSlot emptyDecl "display" "none" true) "display"
        "block" false "display" = none ∨
    ∃ w,
      insertSlot (insertSlot emptyDecl "display" "none" true) "display"
          "block" false "display" = some (w, false) :=
  C10_dynamic_writes_not_important ⟨fun _ _ => true, fun _ _ => true⟩ []
    (insertSlot emptyDecl "display" "none" true) "display" "block"
    (insertSlot (insertSlot emptyDecl "display" "none" true) "display"
      "block" false)
    rfl "display"

/-! ## Registry invariants (C1) -/

lemma regInv_init : RegInv initIds := by
  constructor
  · exact List.Pairwise.nil
  · intro x hx; exact absurd hx (List.not_mem_nil x)

lemma regInv_step (m : MonotonicIds) (op : RegOp) (h : RegInv m) :
    RegInv (regStep m op) := by
  obtain ⟨hsort, hbound⟩ := h
  cases op with
  | alloc =>
    refine ⟨?_, ?_⟩
    · show List.Pairwise (· < ·) (m.ids ++ [m.next_id])
      rw [List.pairwise_append]
      refine ⟨hsort, List.pairwise_singleton _ _, ?_⟩
      intro a ha b hb
      rw [List.mem_singleton.mp hb]
      exact hbound a ha
    · show ∀ x ∈ m.ids ++ [m.next_id], x < m.next_id + 1
      intro x hx
      rcases List.mem_append.mp hx with hx | hx
      · exact Nat.lt_succ_of_lt (hbound x hx)
      · rw [List.mem_singleton.mp hx]
        exact Nat.lt_succ_self _
  | release id =>
    show RegInv (match remove_id id m with
      | some p => p.2
      | none => m)
    rcases hcase : remove_id id m with _ | p
    · exact ⟨hsort, hbound⟩
    · rcases Option.map_eq_some'.mp hcase with ⟨i, _, hp⟩
      rw [← hp]
      constructor
      · exact hsort.sublist (List.eraseIdx_sublist m.ids i)
      · intro x hx
        exact hbound x ((List.eraseIdx_sublist m.ids i).mem hx)

lemma regInv_fold (ops : List RegOp) :
    ∀ m, RegInv m → RegInv (List.foldl regStep m ops) := by
  induction ops with
  | nil => intro m h; exact h
  | cons op ops ih =>
    intro m h
    exact ih (regStep m op) (regInv_step m op h)

lemma regInv_reachable (m : MonotonicIds) (h : RegReachable m) : RegInv m := by
  obtain ⟨ops, hops⟩ := h
  rw [← hops]
  exact regInv_fold ops initIds regInv_init

/-- In a strictly increasing list, an element's position is the number of
elements smaller than it — its rank. -/
lemma listPos_rank :
    ∀ (l : List Nat), l.Pairwise (· < ·) → ∀ x ∈ l,
      listPos x l = some (l.countP (fun y => decide (y < x))) := by
  intro l
  induction l with
  | nil => intro _ x hx; exact absurd hx (List.not_mem_nil x)
  | cons a t ih =>
    intro hp x hx
    have ha := (List.pairwise_cons.mp hp).1
    have hpt := (List.pairwise_cons.mp hp).2
    simp only [listPos]
    by_cases hax : a = x
    · rw [if_pos hax]
      have h0 : (a :: t).countP (fun y => decide (y < x)) = 0 := by
        rw [List.countP_eq_zero]
        intro b hb
        rcases List.mem_cons.mp hb with hb | hb
        · subst hb hax; simp
        · simp only [decide_eq_true_eq]
          subst hax
          exact Nat.not_lt.mpr (Nat.le_of_lt (ha b hb))
      rw [h0]
    · rw [if_neg hax]
      have hxt : x ∈ t := by
        rcases List.mem_cons.mp hx with h | h
        · exact absurd h.symm hax
        · exact h
      rw [ih hpt x hxt]
      have hax2 : a < x := ha x hxt
      simp [List.countP_cons, hax2]

/-- A successful position lookup splits the list around the found
element, and removing that position keeps the two sides. -/
lemma listPos_decomp :
    ∀ (l : List Nat) (x i : Nat), listPos x l = some i →
      ∃ l1 l2, l = l1 ++ x :: l2 ∧ l1.length = i ∧ l.eraseIdx i = l1 ++ l2 := by
  intro l
  induction l with
  | nil => intro x i h; simp [listPos] at h
  | cons a t ih =>
    intro x i h
    simp only [listPos] at h
    by_cases hax : a = x
    · rw [if_pos hax] at h
      have hi : i = 0 := (Option.some.inj h).symm
      subst hi
      exact ⟨[], t, by rw [hax, List.nil_append], rfl, rfl⟩
    · rw [if_neg hax] at h
      rcases Option.map_eq_some'.mp h with ⟨j, hj, hij⟩
      obtain ⟨l1, l2, hl, hlen, herase⟩ := ih x j hj
      refine ⟨a :: l1, l2, by rw [List.cons_append, hl], ?_, ?_⟩
      · simp [hlen, ← hij]
      · rw [← hij]
        show (a :: t).eraseIdx (j + 1) = (a :: l1) ++ l2
        simp only [List.eraseIdx_cons_succ, List.cons_append]
        rw [herase]

/-- C1. In every reachable registry state: (1) the physical index
reported for a still-live id is its 0-based rank among the currently-live
ids ordered by allocation time (ids are allocated in increasing order and
the live sequence stays sorted, so the rank is the count of live ids
allocated before it); (2) releasing id `X` decrements by exactly one the
reported index of every still-live id allocated after `X` and leaves the
index of ids allocated before `X` unchanged; (3) releasing never reorders
the remaining live ids (the new live sequence is an order-preserving
sublist of the old one). -/
theorem C1_index_is_rank (m : MonotonicIds) (hm : RegReachable m) :
    (∀ id ∈ m.ids,
      listPos id m.ids = some (m.ids.countP (fun y => decide (y < id)))) ∧
    (∀ X i mX, remove_id X m = some (i, mX) →
      ∀ y ∈ m.ids, y ≠ X →
        ∃ ky kyX, listPos y m.ids = some ky ∧
          listPos y mX.ids = some kyX ∧
          (X < y → ky = kyX + 1) ∧ (y < X → ky = kyX)) ∧
    (∀ X i mX, remove_id X m = some (i, mX) → mX.ids.Sublist m.ids) := by
  have hinv := regInv_reachable m hm
  refine ⟨fun id hid => listPos_rank m.ids hinv.1 id hid, ?_, ?_⟩
  · intro X i mX hrem y hy hyne
    rcases Option.map_eq_some'.mp hrem with ⟨j, hpos, hp⟩
    obtain ⟨hi, hmX⟩ := Prod.mk.injEq _ _ _ _ ▸ hp
    obtain ⟨l1, l2, hl, hlen, herase⟩ := listPos_decomp m.ids X j hpos
    have hmXids : mX.ids = l1 ++ l2 := by
      rw [← hmX, ← herase]
    have hsort2 : (l1 ++ l2).Pairwise (· < ·) := by
      rw [← herase]
      exact hinv.1.sublist (List.eraseIdx_sublist m.ids j)
    have hy2 : y ∈ l1 ++ l2 := by
      rw [hl] at hy
      rcases List.mem_append.mp hy with hcase | hcase
      · exact List.mem_append_left _ hcase
      · rcases List.mem_cons.mp hcase with hcase | hcase
        · exact absurd hcase hyne
        · exact List.mem_append_right _ hcase
    refine ⟨m.ids.countP (fun z => decide (z < y)),
      (l1 ++ l2).countP (fun z => decide (z < y)),
      listPos_rank m.ids hinv.1 y hy, ?_, ?_, ?_⟩
    · rw [hmXids]
      exact listPos_rank (l1 ++ l2) hsort2 y hy2
    · intro hXy
      rw [hl, List.countP_append, List.countP_append, List.countP_cons]
      simp [hXy]
      omega
    · intro hyX
      have hnXy : ¬X < y := by omega
      rw [hl, List.countP_append, List.countP_append, List.countP_cons]
      simp [hnXy]
  · intro X i mX hrem
    rcases Option.map_eq_some'.mp hrem with ⟨j, _, hp⟩
    obtain ⟨_, hmX⟩ := Prod.mk.injEq _ _ _ _ ▸ hp
    rw [← hmX]
    exact List.eraseIdx_sublist m.ids j

/-- Witness for C1: after `alloc, alloc, alloc, release 1` the live ids
are `[0, 2]`; id 2's reported index is its rank 1, and releasing id 0
decrements it to 0. -/
theorem C1_witness :
    listPos 2 (runReg [RegOp.alloc, RegOp.alloc, RegOp.alloc,
      RegOp.release 1]).ids = some 1 ∧
    ∃ ky kyX, listPos 2 (runReg [RegOp.alloc, RegOp.alloc, RegOp.alloc,
        RegOp.release 1]).ids = some ky ∧
      listPos 2 (⟨3, [2]⟩ : MonotonicIds).ids = some kyX ∧
      (0 < 2 → ky = kyX + 1) ∧ (2 < 0 → ky = kyX) := by
  have h := C1_index_is_rank
    (runReg [RegOp.alloc, RegOp.alloc, RegOp.alloc, RegOp.release 1])
    ⟨[RegOp.alloc, RegOp.alloc, RegOp.alloc, RegOp.release 1], rfl⟩
  constructor
  · exact (h.1 2 (by decide)).trans (by decide)
  · exact h.2.1 0 0 ⟨3, [2]⟩ rfl 2 (by decide) (by decide)

/-! ## Handle release and binding cancellation (C2) -/

/-- C2. `StyleGroupHandle::drop` deletes the rule and cancels every owned
binding task within one synchronous, non-yielding block (`dropBlock`):
the drop body runs `remove_rule` and the `_task_handles` field drop
cancels the tasks immediately after, with no suspension point in between.
In any cooperative execution `A ++ dropBlock ++ B` in which a cancelled
task never runs again (no write of a task after its cancellation event),
an owned task performs no write after the block — and the block itself
contains no writes — so no binding can write into the declaration after
its rule has been deleted. -/
theorem C2_no_write_after_rule_deletion (A B : List Ev) (rid : Nat)
    (tasks : List Nat) (τ : Nat) (hτ : τ ∈ tasks)
    (hvalid : ∀ l1 l2,
      A ++ dropBlock rid tasks ++ B = l1 ++ Ev.cancel τ :: l2 →
      Ev.write τ ∉ l2) :
    Ev.write τ ∉ B ∧ ∀ ev ∈ dropBlock rid tasks, ev ≠ Ev.write τ := by
  obtain ⟨t1, t2, ht⟩ := List.append_of_mem hτ
  constructor
  · intro hwB
    have hsplit : A ++ dropBlock rid tasks ++ B
        = (A ++ Ev.del rid :: t1.map Ev.cancel)
          ++ Ev.cancel τ :: (t2.map Ev.cancel ++ B) := by
      rw [ht]
      simp [dropBlock, List.map_append]
    exact hvalid _ _ hsplit (List.mem_append_right _ hwB)
  · intro ev hev
    simp only [dropBlock, List.mem_cons, List.mem_map] at hev
    rcases hev with hcase | ⟨x, _, hcase⟩
    · subst hcase; simp
    · rw [← hcase]; simp

/-- Witness for C2: a task that writes, then the drop block, and nothing
after. -/
theorem C2_witness :
    Ev.write 7 ∉ ([] : List Ev) ∧ ∀ ev ∈ dropBlock 5 [7], ev ≠ Ev.write 7 :=
  C2_no_write_after_rule_deletion [Ev.write 7] [] 5 [7] 7 (by decide)
    (by
      intro l1 l2 heq
      rcases l1 with _ | ⟨a, _ | ⟨b, _ | ⟨c, l1⟩⟩⟩ <;> simp_all [dropBlock])

/-! ## Application of a style group (C7, C8) -/

/-- When the rule table and the live-id sequence agree on length (the
registry invariant), `style_group_inner` succeeds: it appends the empty
rule `selector{}` at the registry-assigned tail index, records one
`setProp` effect per static property and one `spawnTask` per dynamic
property, and collects task handles only in the droppable case. -/
lemma style_group_inner_some (st : GlobalStyles) (g : StyleGroup) (dr : Bool)
    (hlen : st.sheet.length = st.rule_ids.ids.length) :
    style_group_inner st g dr = some
      (st.rule_ids.next_id,
        (if dr then g.dynamic_css_props else []),
        ⟨st.sheet ++ [g.selector ++ "\x7b\x7d"],
          ⟨st.rule_ids.next_id + 1,
            st.rule_ids.ids ++ [st.rule_ids.next_id]⟩⟩,
        Effect.insertRule g.selector st.rule_ids.ids.length ::
          (g.static_css_props.map (fun p => Effect.setProp p.1 p.2.1 p.2.2) ++
            g.dynamic_css_props.map Effect.spawnTask)) := by
  unfold style_group_inner
  have hins : insertRuleAt st.sheet (g.selector ++ "\x7b\x7d")
      (add_new_id st.rule_ids).2.1
      = some (st.sheet ++ [g.selector ++ "\x7b\x7d"]) := by
    show insertRuleAt st.sheet (g.selector ++ "\x7b\x7d")
      st.rule_ids.ids.length = _
    unfold insertRuleAt
    rw [if_pos (le_of_eq hlen.symm), ← hlen, List.insertIdx_length_self]
  rw [hins]
  rfl

/-- C7 counterexample: a permanent style group whose descriptor carries
the static class `"btn"`.  The complete trace of external calls performed
by `style_group` is just the rule insertion — no class-application call
occurs, so `applyPermanent` does not apply the descriptor's static
classes, contrary to the claim. -/
theorem C7_counterexample :
    style_group ⟨[], initIds⟩ ⟨".button", [], [], ["btn"], [], 0⟩
      = some (⟨[".button" ++ "\x7b\x7d"], ⟨1, [0]⟩⟩,
          [Effect.insertRule ".button" 0]) ∧
    Effect.addClass "btn" ∉ [Effect.insertRule ".button" 0] :=
  ⟨rfl, by decide⟩

/-- C7 amended.  `applyPermanent` (`style_group`) inserts an empty rule
for the descriptor's selector at the registry-assigned tail index, then
applies every static property and spawns one independent reactive binding
per dynamic property; the descriptor's static and dynamic classes (and
resize handlers) are not applicable to global style groups and are
ignored; no handle is returned and no binding is ever cancelled (the task
handles are forgotten; the trace contains no cancellation). -/
theorem C7_amended_permanent_application (st : GlobalStyles) (g : StyleGroup)
    (hlen : st.sheet.length = st.rule_ids.ids.length) :
    style_group st g = some
      (⟨st.sheet ++ [g.selector ++ "\x7b\x7d"],
          ⟨st.rule_ids.next_id + 1,
            st.rule_ids.ids ++ [st.rule_ids.next_id]⟩⟩,
        Effect.insertRule g.selector st.rule_ids.ids.length ::
          (g.static_css_props.map (fun p => Effect.setProp p.1 p.2.1 p.2.2) ++
            g.dynamic_css_props.map Effect.spawnTask)) ∧
    (∀ c, Effect.addClass c ∉
      Effect.insertRule g.selector st.rule_ids.ids.length ::
        (g.static_css_props.map (fun p => Effect.setProp p.1 p.2.1 p.2.2) ++
          g.dynamic_css_props.map Effect.spawnTask)) ∧
    (∀ x, Effect.cancelTask x ∉
      Effect.insertRule g.selector st.rule_ids.ids.length ::
        (g.static_css_props.map (fun p => Effect.setProp p.1 p.2.1 p.2.2) ++
          g.dynamic_css_props.map Effect.spawnTask)) := by
  refine ⟨?_, ?_, ?_⟩
  · unfold style_group
    rw [style_group_inner_some st g false hlen]
  · intro c hc
    simp only [List.mem_cons, List.mem_append, List.mem_map] at hc
    rcases hc with hc | ⟨p, _, hc⟩ | ⟨x, _, hc⟩ <;> cases hc
  · intro x hx
    simp only [List.mem_cons, List.mem_append, List.mem_map] at hx
    rcases hx with hx | ⟨p, _, hx⟩ | ⟨y, _, hx⟩ <;> cases hx

/-- Witness for C7 (amended) at a concrete state and descriptor. -/
theorem C7_witness :
    style_group ⟨[], initIds⟩
        ⟨".b", [("color", "red", false)], ["display"], [], [], 0⟩
      = some (⟨[".b" ++ "\x7b\x7d"], ⟨1, [0]⟩⟩,
          [Effect.insertRule ".b" 0, Effect.setProp "color" "red" false,
            Effect.spawnTask "display"]) :=
  ((C7_amended_permanent_application ⟨[], initIds⟩
    ⟨".b", [("color", "red", false)], ["display"], [], [], 0⟩ rfl).1).trans
    (by decide)

/-! ## Scoped application followed by release (C8) -/

lemma listPos_append_self :
    ∀ (l : List Nat) (x : Nat), x ∉ l →
      listPos x (l ++ [x]) = some l.length := by
  intro l x
  induction l with
  | nil => intro _; simp [listPos]
  | cons a t ih =>
    intro hx
    have hax : ¬a = x := fun h => hx (by rw [← h]; exact List.mem_cons_self a t)
    show listPos x (a :: (t ++ [x])) = some (a :: t).length
    show (if a = x then some 0
      else (listPos x (t ++ [x])).map (fun i => i + 1)) = some (a :: t).length
    rw [if_neg hax, ih (fun hm => hx (List.mem_cons_of_mem a hm))]
    rfl

lemma eraseIdx_append_self {α : Type} :
    ∀ (l : List α) (a : α), (l ++ [a]).eraseIdx l.length = l := by
  intro l a
  induction l with
  | nil => rfl
  | cons b t ih =>
    simp only [List.cons_append, List.length_cons, List.eraseIdx_cons_succ]
    rw [ih]

/-- C8. From any state satisfying the registry invariants (rule table and
live-id sequence agree on length; every live id is below the next fresh
id — both hold in every reachable state), `applyScoped`
(`style_group_droppable`) followed immediately by releasing the returned
handle restores the rule table exactly: the one inserted rule is deleted
again and the rule count is unchanged. -/
theorem C8_scoped_roundtrip_preserves_rule_count (st : GlobalStyles)
    (g : StyleGroup)
    (hlen : st.sheet.length = st.rule_ids.ids.length)
    (hfresh : ∀ x ∈ st.rule_ids.ids, x < st.rule_ids.next_id) :
    ∃ st1 h effs, style_group_droppable st g = some (st1, h, effs) ∧
      ∃ st2, dropHandle st1 h = some st2 ∧ st2.sheet = st.sheet ∧
        st2.sheet.length = st.sheet.length := by
  have hnm : st.rule_ids.next_id ∉ st.rule_ids.ids := fun hm =>
    absurd (hfresh _ hm) (lt_irrefl _)
  have hrm : remove_id st.rule_ids.next_id
      (⟨st.rule_ids.next_id + 1,
        st.rule_ids.ids ++ [st.rule_ids.next_id]⟩ : MonotonicIds)
      = some (st.rule_ids.ids.length,
          ⟨st.rule_ids.next_id + 1, st.rule_ids.ids⟩) := by
    unfold remove_id
    show (listPos st.rule_ids.next_id
        (st.rule_ids.ids ++ [st.rule_ids.next_id])).map _ = _
    rw [listPos_append_self _ _ hnm, Option.map_some']
    show some (st.rule_ids.ids.length,
      (⟨st.rule_ids.next_id + 1,
        (st.rule_ids.ids ++ [st.rule_ids.next_id]).eraseIdx
          st.rule_ids.ids.length⟩ : MonotonicIds)) = _
    rw [eraseIdx_append_self]
  refine ⟨⟨st.sheet ++ [g.selector ++ "\x7b\x7d"],
      ⟨st.rule_ids.next_id + 1, st.rule_ids.ids ++ [st.rule_ids.next_id]⟩⟩,
    ⟨st.rule_ids.next_id, g.dynamic_css_props⟩,
    Effect.insertRule g.selector st.rule_ids.ids.length ::
      (g.static_css_props.map (fun p => Effect.setProp p.1 p.2.1 p.2.2) ++
        g.dynamic_css_props.map Effect.spawnTask), ?_,
    ⟨st.sheet, ⟨st.rule_ids.next_id + 1, st.rule_ids.ids⟩⟩, ?_, rfl, rfl⟩
  · unfold style_group_droppable
    rw [style_group_inner_some st g true hlen]
    rfl
  · show remove_rule _ _ = some _
    unfold remove_rule
    rw [hrm]
    have hlt : st.rule_ids.ids.length
        < (st.sheet ++ [g.selector ++ "\x7b\x7d"]).length := by
      rw [List.length_append, ← hlen]; simp
    show (if st.rule_ids.ids.length
        < (st.sheet ++ [g.selector ++ "\x7b\x7d"]).length then
        some (⟨(st.sheet ++ [g.selector ++ "\x7b\x7d"]).eraseIdx
            st.rule_ids.ids.length,
          ⟨st.rule_ids.next_id + 1, st.rule_ids.ids⟩⟩ : GlobalStyles)
      else none)
      = some (⟨st.sheet, ⟨st.rule_ids.next_id + 1, st.rule_ids.ids⟩⟩ :
          GlobalStyles)
    rw [if_pos hlt, ← hlen, eraseIdx_append_self]

/-- Witness for C8 at a concrete state with one live rule. -/
theorem C8_witness :
    ∃ st1 h effs,
      style_group_droppable ⟨["a" ++ "\x7b\x7d"], ⟨1, [0]⟩⟩
          ⟨".x", [], [], [], [], 0⟩
        = some (st1, h, effs) ∧
      ∃ st2, dropHandle st1 h = some st2 ∧
        st2.sheet = (⟨["a" ++ "\x7b\x7d"], ⟨1, [0]⟩⟩ : GlobalStyles).sheet ∧
        st2.sheet.length
          = (⟨["a" ++ "\x7b\x7d"], ⟨1, [0]⟩⟩ : GlobalStyles).sheet.length :=
  C8_scoped_roundtrip_preserves_rule_count ⟨["a" ++ "\x7b\x7d"], ⟨1, [0]⟩⟩
    ⟨".x", [], [], [], [], 0⟩ rfl (by decide)
